import Mathlib

/-!
Shallow embedding of the coin-pusher game's coin-interaction and economy
state machine (collision event reducer, entity registry, economy state),
translated from the TypeScript sources.  Positions, velocities and money
are modelled as rationals; machine floats are idealised as exact rationals.
-/

/-- The coin kinds (`CoinType` enum in types.ts). -/
inductive CoinType where
  | STANDARD | SPLITTER | HEAVY | GOLD | BOMB
  | SEED | WATER | MAGMA | ICE | KEY | CHEST
  | TREE | OBSIDIAN | DIAMOND
  deriving DecidableEq, Repr, Fintype

/-- The string value of each enum member (types.ts assigns each member its
own name as string value; used in the interaction dedup key). -/
def coinTypeName : CoinType → String
  | .STANDARD => "STANDARD"
  | .SPLITTER => "SPLITTER"
  | .HEAVY => "HEAVY"
  | .GOLD => "GOLD"
  | .BOMB => "BOMB"
  | .SEED => "SEED"
  | .WATER => "WATER"
  | .MAGMA => "MAGMA"
  | .ICE => "ICE"
  | .KEY => "KEY"
  | .CHEST => "CHEST"
  | .TREE => "TREE"
  | .OBSIDIAN => "OBSIDIAN"
  | .DIAMOND => "DIAMOND"

/-- A 3-vector of rationals (positions / rotations / velocities). -/
structure Vec3 where
  x : ℚ
  y : ℚ
  z : ℚ
  deriving DecidableEq, Repr

/-- `CoinData` from types.ts.  The optional `hasSplit` / `isActive` fields
default to `false` (JS `undefined` is falsy wherever they are read). -/
structure CoinData where
  id : String
  type : CoinType
  position : Vec3
  rotation : Vec3
  hasSplit : Bool := false
  isActive : Bool := false
  deriving DecidableEq, Repr

/-- `COIN_CONFIG[type].value` (cash on collection) from constants.ts. -/
def coinValue : CoinType → ℚ
  | .STANDARD => 10
  | .SPLITTER => 15
  | .HEAVY => 20
  | .GOLD => 100
  | .BOMB => 5
  | .SEED => 5
  | .WATER => 5
  | .MAGMA => 10
  | .ICE => 10
  | .KEY => 50
  | .CHEST => 50
  | .TREE => 500
  | .OBSIDIAN => 300
  | .DIAMOND => 1000

/-- `COIN_CONFIG[type].score` (base score on collection) from constants.ts. -/
def coinScore : CoinType → ℚ
  | .STANDARD => 100
  | .SPLITTER => 150
  | .HEAVY => 300
  | .GOLD => 1000
  | .BOMB => 50
  | .SEED => 50
  | .WATER => 50
  | .MAGMA => 80
  | .ICE => 80
  | .KEY => 200
  | .CHEST => 200
  | .TREE => 5000
  | .OBSIDIAN => 3000
  | .DIAMOND => 10000

/-- `COIN_CONFIG[type].cost` (shop cost) from constants.ts. -/
def coinCost : CoinType → ℚ
  | .STANDARD => 5
  | .SPLITTER => 50
  | .HEAVY => 80
  | .GOLD => 200
  | .BOMB => 150
  | .SEED => 40
  | .WATER => 40
  | .MAGMA => 60
  | .ICE => 60
  | .KEY => 120
  | .CHEST => 120
  | .TREE => 9999
  | .OBSIDIAN => 9999
  | .DIAMOND => 9999

/-- The interaction rule table `interactionResults` from Coins.tsx:
a partial symmetric map from ordered type pairs to the product type. -/
def interactionResults : CoinType → CoinType → Option CoinType
  | .SEED, .WATER => some .TREE
  | .WATER, .SEED => some .TREE
  | .MAGMA, .ICE => some .OBSIDIAN
  | .ICE, .MAGMA => some .OBSIDIAN
  | .KEY, .CHEST => some .DIAMOND
  | .CHEST, .KEY => some .DIAMOND
  | _, _ => none

/-- `interactionCoinTypes` from Coins.tsx: the six reaction-eligible types. -/
def interactionCoinTypes : CoinType → Bool
  | .SEED | .WATER | .MAGMA | .ICE | .KEY | .CHEST => true
  | _ => false

/-- `activeCollisionCoinTypes` from Coins.tsx: reaction-eligible types plus
SPLITTER, GOLD and BOMB. -/
def activeCollisionCoinTypes : CoinType → Bool
  | .SEED | .WATER | .MAGMA | .ICE | .KEY | .CHEST => true
  | .SPLITTER | .GOLD | .BOMB => true
  | _ => false

/-- A queued combine event (`{ id1, id2, result }` in the pending map). -/
structure QueuedInteraction where
  id1 : String
  id2 : String
  result : CoinType
  deriving DecidableEq, Repr

/-- The dedup key of a combine event: the template string
`id1:id2:result` from `queueInteraction` in Coins.tsx. -/
def interactionKey (id1 id2 : String) (result : CoinType) : String :=
  id1 ++ ":" ++ id2 ++ ":" ++ coinTypeName result

/-- JS lexicographic (code-unit) comparison of character sequences,
embedding the `<` operator applied to id strings in Coins.tsx. -/
def charListLt : List Char → List Char → Bool
  | [], [] => false
  | [], _ :: _ => true
  | _ :: _, [] => false
  | a :: as, b :: bs => if a < b then true else if b < a then false else charListLt as bs

/-- JS string `<` (lexicographic), used for the combine tie-break. -/
def strLt (a b : String) : Bool := charListLt a.data b.data

/-- JS `Map` modelled as an insertion-ordered association list. -/
abbrev JsMap (β : Type) := List (String × β)

/-- Keys of a JS-Map model, in insertion order. -/
def jsKeys {β : Type} (m : JsMap β) : List String := m.map Prod.fst

/-- JS `Map.prototype.set`: replace in place when the key is present
(a JS Map never holds a key twice), append otherwise. -/
def mapSet {β : Type} : JsMap β → String → β → JsMap β
  | [], k, v => [(k, v)]
  | p :: m, k, v => if p.1 = k then (k, v) :: m else p :: mapSet m k v

/-- JS `Map.prototype.delete`: drop the entry with the given key. -/
def mapDelete {β : Type} (m : JsMap β) (k : String) : JsMap β :=
  m.filter (fun p => p.1 ≠ k)

/-- The per-tick pending interaction queue (`pendingEventsRef.current.interactions`),
a JS Map keyed by the dedup key. -/
abbrev PendingInteractions := JsMap QueuedInteraction

/-- `queueInteraction` from Coins.tsx. -/
def queueInteraction (pending : PendingInteractions) (id1 id2 : String)
    (result : CoinType) : PendingInteractions :=
  mapSet pending (interactionKey id1 id2 result) ⟨id1, id2, result⟩

/-- The coin-to-coin interaction branch of `handleCollision` in Coins.tsx,
run for the collision callback in which `coin` is the self entity and the
other body carries coin user data `(otherId, otherType)`.  The JS guard
`otherCoinId && otherCoinType && interactionCoinTypes.has(coin.type)` is
modelled with string truthiness (`otherId ≠ ""`; enum values are nonempty). -/
def handleCollisionCoinToCoin (pending : PendingInteractions) (coin : CoinData)
    (otherId : String) (otherType : CoinType) : PendingInteractions :=
  if activeCollisionCoinTypes coin.type = false then pending
  else if otherId ≠ "" ∧ interactionCoinTypes coin.type = true then
    match interactionResults coin.type otherType with
    | some result =>
        if strLt coin.id otherId then queueInteraction pending coin.id otherId result
        else pending
    | none => pending
  else pending

/-! ### Entity registry (coinState in App.tsx: coinMap + coinOrder) -/

/-- The registry state `{ coinMap, coinOrder }` held by `setCoinState`. -/
structure Registry where
  coinMap : JsMap CoinData
  coinOrder : List String
  deriving DecidableEq, Repr

/-- The empty registry (MENU / restart state). -/
def emptyRegistry : Registry := ⟨[], []⟩

/-- The registry part of `spawnCoin` in App.tsx: insert the freshly built
coin into the map and append its id to the order list.  The random id and
placement are parameters of the embedding (the generator is external). -/
def spawnCoinRegistry (prev : Registry) (newCoin : CoinData) : Registry :=
  { coinMap := mapSet prev.coinMap newCoin.id newCoin
    coinOrder := prev.coinOrder ++ [newCoin.id] }

/-- The registry part of `triggerJackpot` and of the initial fill in
`startGame`: batch-insert a list of freshly built coins
(`new Map([...prev.coinMap, ...newCoins])` plus order append). -/
def addCoinsRegistry (prev : Registry) (newCoins : List CoinData) : Registry :=
  { coinMap := newCoins.foldl (fun m c => mapSet m c.id c) prev.coinMap
    coinOrder := prev.coinOrder ++ newCoins.map CoinData.id }

/-- `startGame`'s initial fill builds the registry from scratch. -/
def initialFillRegistry (coins : List CoinData) : Registry :=
  addCoinsRegistry emptyRegistry coins

/-- A queued split event: recorded contact point (already offset `+1` in y
by `queueSplit`), the clone's random rotation, and its random id. -/
structure SplitEvent where
  pos : Vec3
  rotY : ℚ
  cloneId : String
  deriving DecidableEq, Repr

/-- `handleSplit` in App.tsx: skip when the source is missing or already
flagged; otherwise latch `hasSplit` on the source and insert one clone of
SPLITTER type, itself flagged `hasSplit`, one unit above the event position. -/
def handleSplit (prev : Registry) (id : String) (e : SplitEvent) : Registry :=
  match prev.coinMap.lookup id with
  | none => prev
  | some original =>
    if original.hasSplit then prev
    else
      let m1 := mapSet prev.coinMap id { original with hasSplit := true }
      let clone : CoinData :=
        { id := e.cloneId, type := .SPLITTER, hasSplit := true
          position := ⟨e.pos.x, e.pos.y + 1, e.pos.z⟩
          rotation := ⟨0, e.rotY, 0⟩ }
      { coinMap := mapSet m1 e.cloneId clone
        coinOrder := prev.coinOrder ++ [e.cloneId] }

/-- `handleExplode` in App.tsx: remove the detonated coin if present. -/
def handleExplode (prev : Registry) (id : String) : Registry :=
  if (prev.coinMap.lookup id).isSome then
    { coinMap := mapDelete prev.coinMap id
      coinOrder := prev.coinOrder.filter (fun coinId => coinId ≠ id) }
  else prev

/-- `handleTransmute` in App.tsx: skip when the target is missing or already
GOLD; otherwise mutate the target's type to GOLD in place (order unchanged). -/
def handleTransmute (prev : Registry) (targetId : String) : Registry :=
  match prev.coinMap.lookup targetId with
  | none => prev
  | some target =>
    if target.type = CoinType.GOLD then prev
    else { prev with coinMap := mapSet prev.coinMap targetId { target with type := .GOLD } }

/-- Componentwise midpoint of two positions. -/
def midpoint3 (a b : Vec3) : Vec3 :=
  ⟨(a.x + b.x) / 2, (a.y + b.y) / 2, (a.z + b.z) / 2⟩

/-- `handleCoinInteraction` in App.tsx: skip unless both reactants are
present; otherwise delete both, and insert the product coin (fresh random
id `mergedId`) at their midpoint with zero rotation. -/
def handleCoinInteraction (prev : Registry) (id1 id2 : String)
    (resultType : CoinType) (mergedId : String) : Registry :=
  match prev.coinMap.lookup id1, prev.coinMap.lookup id2 with
  | some coin1, some coin2 =>
    let m := mapDelete (mapDelete prev.coinMap id1) id2
    let newCoin : CoinData :=
      { id := mergedId, type := resultType
        position := midpoint3 coin1.position coin2.position
        rotation := ⟨0, 0, 0⟩ }
    { coinMap := mapSet m mergedId newCoin
      coinOrder :=
        (prev.coinOrder.filter (fun coinId => coinId ≠ id1 ∧ coinId ≠ id2)) ++ [mergedId] }
  | _, _ => prev

/-- The registry part of `handleCoinCollected` in App.tsx: remove the
collected coin if it is still present. -/
def collectRegistry (prev : Registry) (id : String) : Registry :=
  if (prev.coinMap.lookup id).isSome then
    { coinMap := mapDelete prev.coinMap id
      coinOrder := prev.coinOrder.filter (fun coinId => coinId ≠ id) }
  else prev

/-! ### Economy / progression state (GameState in types.ts, reducers in App.tsx) -/

/-- `GamePhase` from types.ts. -/
inductive GamePhase where
  | MENU | PLAYING | SHOP | GAME_OVER
  deriving DecidableEq, Repr

/-- An owned or catalog artifact (types.ts `Artifact`, minus display text). -/
structure Artifact where
  id : String
  cost : ℚ
  active : Bool
  level : ℕ
  deriving DecidableEq, Repr

/-- `SHOP_ARTIFACTS` from constants.ts. -/
def SHOP_ARTIFACTS : List Artifact :=
  [⟨"magnet", 300, false, 0⟩, ⟨"extender", 500, false, 0⟩, ⟨"mult", 800, false, 0⟩]

/-- `GameState` from types.ts (deck as a count function). -/
structure GameState where
  phase : GamePhase
  score : ℚ
  targetScore : ℚ
  cash : ℚ
  ante : ℕ
  deck : CoinType → ℤ
  artifacts : List Artifact
  bonus : ℚ
  bonusLevel : ℕ

/-- `INITIAL_DECK` from constants.ts. -/
def INITIAL_DECK : CoinType → ℤ
  | .STANDARD => 30
  | .SPLITTER => 2
  | .HEAVY => 1
  | .SEED => 3
  | .WATER => 3
  | _ => 0

/-- `INITIAL_STATE` from App.tsx. -/
def INITIAL_STATE : GameState :=
  { phase := .MENU, score := 0, targetScore := 2000, cash := 100, ante := 1
    deck := INITIAL_DECK, artifacts := [], bonus := 0, bonusLevel := 1 }

/-- Level of the artifact with the given id (`find` returning level, 0 when
not owned), as read in `handleCoinCollected` and `ShopArtifactItem`. -/
def artifactLevel (artifacts : List Artifact) (id : String) : ℕ :=
  match artifacts.find? (fun a => a.id = id) with
  | some a => a.level
  | none => 0

/-- The economy part of `handleCoinCollected` in App.tsx: add the coin's
value to cash, `floor(score_base * 1.5^multLevel * (1 + 0.1*(bonusLevel-1)))`
to score, raise the bonus meter by the flat 4; a meter reaching 100 resets
to 0 and increments the bonus level (scheduling the jackpot burst). -/
def handleCoinCollectedEcon (state : GameState) (type : CoinType) : GameState :=
  let level := artifactLevel state.artifacts "mult"
  let scoreMult : ℚ := (3 / 2) ^ level
  let bonusMult : ℚ := 1 + (1 / 10) * ((state.bonusLevel : ℚ) - 1)
  let newBonus := state.bonus + 4
  let gained : ℚ := (Int.floor (coinScore type * scoreMult * bonusMult) : ℤ)
  if newBonus ≥ 100 then
    { state with score := state.score + gained, cash := state.cash + coinValue type
                 bonus := 0, bonusLevel := state.bonusLevel + 1 }
  else
    { state with score := state.score + gained, cash := state.cash + coinValue type
                 bonus := newBonus }

/-- `handleCoinCollected` in App.tsx acting on both halves of the state:
the registry removal is guarded on presence, the economy update is not. -/
def handleCoinCollected (reg : Registry) (state : GameState) (id : String)
    (type : CoinType) : Registry × GameState :=
  (collectRegistry reg id, handleCoinCollectedEcon state type)

/-- One firing of the bonus-decay interval body in App.tsx, with the
accumulated simulated-time delta as parameter.  The `sinceScore ≤ 2` grace
branch and the `decayDelta ≤ 0` branch leave the meter untouched; otherwise
the meter decays at 20 per second of simulated time, clamped at 0, and the
bonus level resets to 1 when the meter empties. -/
def bonusDecayStep (state : GameState) (decayDelta : ℚ) : GameState :=
  if decayDelta ≤ 0 then state
  else if state.bonus ≤ 0 then state
  else
    let nextBonus := max 0 (state.bonus - 20 * decayDelta)
    { state with bonus := nextBonus
                 bonusLevel := if nextBonus = 0 then 1 else state.bonusLevel }

/-- `handleRoundEnd` in App.tsx. -/
def handleRoundEnd (state : GameState) : GameState :=
  if state.score ≥ state.targetScore then
    { state with phase := .SHOP, score := 0, bonus := 0, bonusLevel := 1 }
  else { state with phase := .GAME_OVER }

/-- `nextRound` in App.tsx. -/
def nextRound (state : GameState) : GameState :=
  { state with phase := .PLAYING, ante := state.ante + 1
               targetScore := (Int.floor (state.targetScore * (3 / 2)) : ℤ) }

/-- `startGame` in App.tsx resets to the initial snapshot in PLAYING phase. -/
def startGameState : GameState := { INITIAL_STATE with phase := .PLAYING }

/-- The deck part of `spawnCoin` in App.tsx (a paid drop with an empty deck
slot is rejected before any mutation). -/
def spawnCoinEcon (state : GameState) (type : CoinType) (isFree : Bool) : GameState :=
  if ¬isFree ∧ state.deck type ≤ 0 then state
  else if isFree then state
  else { state with deck := fun t => if t = type then state.deck t - 1 else state.deck t }

/-- Increment the level of the first artifact with the given id
(`findIndex` + in-place copy update in `buyItem`). -/
def bumpFirstArtifact : List Artifact → String → List Artifact
  | [], _ => []
  | a :: rest, id =>
    if a.id = id then { a with level := a.level + 1 } :: rest
    else a :: bumpFirstArtifact rest id

/-- The kind tag of a shop purchase (`'coin' | 'artifact'`). -/
inductive ItemKind where
  | coin | artifact
  deriving DecidableEq, Repr

/-- `buyItem` in App.tsx: reject when cash is short; otherwise deduct the
cost and either add a 5-pack to the deck (coin), bump the first owned
artifact with that id, or append a fresh level-1 copy from the catalog
(an unknown artifact id leaves the artifact list untouched). -/
def buyItem (state : GameState) (itemType : ItemKind) (id : String) (idCoin : CoinType)
    (cost : ℚ) : GameState :=
  if state.cash ≥ cost then
    let s1 := { state with cash := state.cash - cost }
    match itemType with
    | .coin =>
      { s1 with deck := fun t => if t = idCoin then state.deck t + 5 else state.deck t }
    | .artifact =>
      if (state.artifacts.find? (fun a => a.id = id)).isSome then
        { s1 with artifacts := bumpFirstArtifact state.artifacts id }
      else
        match SHOP_ARTIFACTS.find? (fun a => a.id = id) with
        | some baseArtifact =>
          { s1 with artifacts := state.artifacts ++ [{ baseArtifact with active := true, level := 1 }] }
        | none => s1
  else state

/-- `ShopArtifactItem` in Shop.tsx: the displayed purchase price,
`floor(baseCost * 1.5^currentLevel)` with the level read from the owned list. -/
def artifactCurrentCost (state : GameState) (base : Artifact) : ℤ :=
  Int.floor (base.cost * (3 / 2) ^ artifactLevel state.artifacts base.id)

/-- Pressing an artifact's buy button: `onBuy('artifact', id, currentCost)`
wired to `buyItem`. -/
def purchaseArtifact (state : GameState) (base : Artifact) : GameState :=
  buyItem state .artifact base.id .STANDARD ((artifactCurrentCost state base : ℤ) : ℚ)

/-! ### Explosion resolver (triggerExplosion in Coins.tsx) -/

/-- `explosionRadius` in `triggerExplosion`. -/
def explosionRadius : ℚ := 8

/-- `explosionForce` in `triggerExplosion`. -/
def explosionForce : ℚ := 8

/-- The squared distance between the detonation center and another body;
the code computes `dist = Math.sqrt(distSq3 ...)`. -/
def distSq3 (center otherPos : Vec3) : ℚ :=
  (center.x - otherPos.x) ^ 2 + (center.y - otherPos.y) ^ 2 + (center.z - otherPos.z) ^ 2

/-- The body-processing guard `dist < explosionRadius` of `triggerExplosion`,
phrased on squared distances (`sqrt d < 8 ↔ d < 64` for `d ≥ 0`). -/
def explosionBodyProcessed (center otherPos : Vec3) : Prop :=
  distSq3 center otherPos < explosionRadius ^ 2

instance (center otherPos : Vec3) : Decidable (explosionBodyProcessed center otherPos) := by
  unfold explosionBodyProcessed; infer_instance

/-- The divisor `dist` of the direction computation in `triggerExplosion`
is zero (`sqrt d = 0 ↔ d = 0`). -/
def explosionDivisorIsZero (center otherPos : Vec3) : Prop :=
  distSq3 center otherPos = 0

instance (center otherPos : Vec3) : Decidable (explosionDivisorIsZero center otherPos) := by
  unfold explosionDivisorIsZero; infer_instance

/-! ### Lemmas about the string order used by the tie-break -/

lemma charListLt_nil_right (l : List Char) : charListLt l [] = false := by
  cases l <;> rfl

lemma charListLt_asymm : ∀ {a b : List Char}, charListLt a b = true → charListLt b a = false
  | [], [], h => by simp [charListLt] at h
  | [], _ :: _, _ => charListLt_nil_right _
  | _ :: _, [], h => by simp [charListLt] at h
  | x :: xs, y :: ys, h => by
      by_cases hxy : x < y
      · have hyx : ¬ y < x := lt_asymm hxy
        simp [charListLt, hxy, hyx]
      · by_cases hyx : y < x
        · simp [charListLt, hxy, hyx] at h
        · simp only [charListLt, if_neg hxy, if_neg hyx] at h
          simp only [charListLt, if_neg hyx, if_neg hxy]
          exact charListLt_asymm h

lemma charListLt_total : ∀ {a b : List Char}, a ≠ b →
    charListLt a b = true ∨ charListLt b a = true
  | [], [], h => absurd rfl h
  | [], _ :: _, _ => Or.inl rfl
  | _ :: _, [], _ => Or.inr rfl
  | x :: xs, y :: ys, h => by
      rcases lt_trichotomy x y with hxy | hxy | hxy
      · exact Or.inl (by simp [charListLt, hxy])
      · subst hxy
        have hxs : xs ≠ ys := fun he => h (by rw [he])
        have hirr : ¬ x < x := lt_irrefl x
        rcases charListLt_total hxs with h' | h'
        · exact Or.inl (by simp [charListLt, hirr, h'])
        · exact Or.inr (by simp [charListLt, hirr, h'])
      · exact Or.inr (by simp [charListLt, hxy, lt_asymm hxy])

lemma strLt_empty_right (s : String) : strLt s "" = false :=
  charListLt_nil_right s.data

lemma strLt_asymm {a b : String} (h : strLt a b = true) : strLt b a = false :=
  charListLt_asymm h

lemma strLt_total {a b : String} (h : a ≠ b) : strLt a b = true ∨ strLt b a = true :=
  charListLt_total (fun hd => h (String.ext hd))

lemma ne_empty_of_strLt {a b : String} (h : strLt a b = true) : b ≠ "" := by
  intro hb
  rw [hb, strLt_empty_right] at h
  exact Bool.false_ne_true h

/-! ### Lemmas about the JS-Map model -/

section JsMapLemmas

variable {β : Type}

lemma lookup_isSome_iff_mem_keys (m : JsMap β) (k : String) :
    (m.lookup k).isSome = true ↔ k ∈ jsKeys m := by
  induction m with
  | nil => simp [jsKeys, List.lookup]
  | cons p m ih =>
      simp only [jsKeys, List.map_cons, List.mem_cons, List.lookup]
      by_cases h : k = p.1
      · simp [h]
      · have hb : (k == p.1) = false := by simp [h]
        rw [hb]
        simp only [jsKeys] at ih
        rw [ih]
        exact ⟨Or.inr, fun hm => hm.resolve_left h⟩

lemma lookup_eq_none_of_not_mem_keys {m : JsMap β} {k : String}
    (h : k ∉ jsKeys m) : m.lookup k = none := by
  have h2 := (lookup_isSome_iff_mem_keys m k).not.mpr h
  cases hl : m.lookup k with
  | none => rfl
  | some v => exact absurd (by simp [hl]) h2

lemma mem_keys_cons {p : String × β} {m : JsMap β} {k : String} :
    k ∈ jsKeys (p :: m) ↔ k = p.1 ∨ k ∈ jsKeys m := by
  simp only [jsKeys, List.map_cons, List.mem_cons]

lemma keys_mapSet_of_mem {m : JsMap β} {k : String} (v : β) (h : k ∈ jsKeys m) :
    jsKeys (mapSet m k v) = jsKeys m := by
  induction m with
  | nil => simp [jsKeys] at h
  | cons p m ih =>
      by_cases hp : p.1 = k
      · simp [mapSet, hp, jsKeys]
      · have hm : k ∈ jsKeys m := by
          rcases mem_keys_cons.mp h with h' | h'
          · exact absurd h'.symm hp
          · exact h'
        simp only [mapSet, if_neg hp, jsKeys, List.map_cons]
        rw [show List.map Prod.fst (mapSet m k v) = jsKeys (mapSet m k v) from rfl, ih hm]
        rfl

lemma keys_mapSet_of_not_mem {m : JsMap β} {k : String} (v : β) (h : k ∉ jsKeys m) :
    jsKeys (mapSet m k v) = jsKeys m ++ [k] := by
  induction m with
  | nil => simp [mapSet, jsKeys]
  | cons p m ih =>
      have hp : p.1 ≠ k := fun he => h (mem_keys_cons.mpr (Or.inl he.symm))
      have hm : k ∉ jsKeys m := fun hk => h (mem_keys_cons.mpr (Or.inr hk))
      simp only [mapSet, if_neg hp, jsKeys, List.map_cons, List.cons_append]
      rw [show List.map Prod.fst (mapSet m k v) = jsKeys (mapSet m k v) from rfl, ih hm]
      rfl

lemma keys_mapDelete (m : JsMap β) (k : String) :
    jsKeys (mapDelete m k) = (jsKeys m).filter (fun x => x ≠ k) := by
  induction m with
  | nil => rfl
  | cons p m ih =>
      by_cases h : p.1 = k <;> simp [mapDelete, jsKeys, h] at ih ⊢ <;> exact ih

lemma lookup_mapSet_self (m : JsMap β) (k : String) (v : β) :
    (mapSet m k v).lookup k = some v := by
  induction m with
  | nil => simp [mapSet, List.lookup]
  | cons p m ih =>
      by_cases hp : p.1 = k
      · simp [mapSet, hp, List.lookup]
      · have hb : (k == p.1) = false := by simp; exact fun he => hp he.symm
        simpa [mapSet, hp, List.lookup, hb] using ih

lemma lookup_mapSet_ne (m : JsMap β) {k k' : String} (v : β) (h : k' ≠ k) :
    (mapSet m k v).lookup k' = m.lookup k' := by
  have hb : (k' == k) = false := by simp [h]
  induction m with
  | nil => simp [mapSet, List.lookup, hb]
  | cons p m ih =>
      by_cases hp : p.1 = k
      · subst hp
        simp [mapSet, List.lookup, hb]
      · by_cases hk' : k' = p.1
        · have hb2 : (k' == p.1) = true := by simp [hk']
          simp [mapSet, hp, List.lookup, hb2]
        · have hb2 : (k' == p.1) = false := by simp [hk']
          simpa [mapSet, hp, List.lookup, hb2] using ih

lemma lookup_mapDelete_self (m : JsMap β) (k : String) :
    (mapDelete m k).lookup k = none := by
  induction m with
  | nil => rfl
  | cons p m ih =>
      by_cases h : p.1 = k
      · simpa [mapDelete, h] using ih
      · have hb : (k == p.1) = false := by simp; exact fun he => h he.symm
        simpa [mapDelete, h, List.lookup, hb] using ih

lemma lookup_mapDelete_ne (m : JsMap β) {k k' : String} (h : k' ≠ k) :
    (mapDelete m k).lookup k' = m.lookup k' := by
  induction m with
  | nil => rfl
  | cons p m ih =>
      by_cases hp : p.1 = k
      · have hb : (k' == k) = false := by simp [h]
        simpa [mapDelete, hp, List.lookup, hb] using ih
      · by_cases hk' : k' = p.1
        · have hb2 : (k' == p.1) = true := by simp [hk']
          simp [mapDelete, hp, List.lookup, hb2]
        · have hb2 : (k' == p.1) = false := by simp [hk']
          simpa [mapDelete, hp, List.lookup, hb2] using ih

lemma length_mapDelete_of_nodup {m : JsMap β} {k : String}
    (hnd : (jsKeys m).Nodup) (hmem : k ∈ jsKeys m) :
    (mapDelete m k).length + 1 = m.length := by
  induction m with
  | nil => simp [jsKeys] at hmem
  | cons p m ih =>
      simp only [jsKeys, List.map_cons, List.nodup_cons] at hnd
      by_cases h : p.1 = k
      · subst h
        have hd : mapDelete (p :: m) p.1 = mapDelete m p.1 := by simp [mapDelete]
        rw [hd]
        have hrest : mapDelete m p.1 = m := by
          apply List.filter_eq_self.mpr
          intro q hq
          simp only [ne_eq, decide_eq_true_eq]
          intro he
          exact hnd.1 (he ▸ List.mem_map_of_mem Prod.fst hq)
        simp [hrest]
      · have hmem' : k ∈ jsKeys m := by
          rcases mem_keys_cons.mp hmem with h' | h'
          · exact absurd h'.symm h
          · exact h'
        have hlen := ih hnd.2 hmem'
        have hd : mapDelete (p :: m) k = p :: mapDelete m k := by
          simp [mapDelete, h]
        rw [hd]
        simp only [List.length_cons]
        omega

lemma length_mapSet_of_not_mem {m : JsMap β} {k : String} (v : β)
    (h : k ∉ jsKeys m) :
    (mapSet m k v).length = m.length + 1 := by
  induction m with
  | nil => simp [mapSet]
  | cons p m ih =>
      have hp : p.1 ≠ k := fun he => h (by simp [jsKeys, he])
      have hm : k ∉ jsKeys m := fun hk => h (by simp [jsKeys]; exact Or.inr (by simpa [jsKeys] using hk))
      simp only [mapSet, if_neg hp, List.length_cons, ih hm]

end JsMapLemmas

/-! ### The collision reducer dedups the two symmetric callbacks (C1) -/

lemma interaction_table_in_types :
    ∀ t u r, interactionResults t u = some r → interactionCoinTypes t = true := by decide

lemma interaction_table_symm :
    ∀ t u r, interactionResults t u = some r → interactionResults u t = some r := by decide

lemma interaction_table_active :
    ∀ t u r, interactionResults t u = some r → activeCollisionCoinTypes t = true := by decide

lemma handleCollision_enqueues (pending : PendingInteractions) (coin : CoinData)
    (otherId : String) (otherType : CoinType) (r : CoinType)
    (hr : interactionResults coin.type otherType = some r)
    (hlt : strLt coin.id otherId = true) :
    handleCollisionCoinToCoin pending coin otherId otherType
      = queueInteraction pending coin.id otherId r := by
  have hA := interaction_table_active _ _ _ hr
  have hI := interaction_table_in_types _ _ _ hr
  have hne : otherId ≠ "" := ne_empty_of_strLt hlt
  simp [handleCollisionCoinToCoin, hA, hI, hne, hr, hlt]

lemma handleCollision_skips_of_not_lt (pending : PendingInteractions) (coin : CoinData)
    (otherId : String) (otherType : CoinType)
    (hlt : strLt coin.id otherId = false) :
    handleCollisionCoinToCoin pending coin otherId otherType = pending := by
  by_cases hA : activeCollisionCoinTypes coin.type = false
  · simp [handleCollisionCoinToCoin, hA]
  · by_cases hg : otherId ≠ "" ∧ interactionCoinTypes coin.type = true
    · cases hres : interactionResults coin.type otherType with
      | none => simp [handleCollisionCoinToCoin, hA, hg, hres]
      | some r' => simp [handleCollisionCoinToCoin, hA, hg, hres, hlt]
    · simp [handleCollisionCoinToCoin, hA, hg]

/-- C1: for every pair of distinct reaction-eligible coins whose types have a
rule-table entry, processing the two symmetric collision callbacks of one tick
(self-hits-other and other-hits-self, in either arrival order) enqueues exactly
one combine event — never zero and never two — and that event is selected by
the lexicographic tie-break `strLt id1 id2` and keyed by `(id1, id2, resultType)`. -/
theorem combine_event_enqueued_exactly_once (cA cB : CoinData) (r : CoinType)
    (hne : cA.id ≠ cB.id)
    (hAB : interactionResults cA.type cB.type = some r) :
    ((handleCollisionCoinToCoin (handleCollisionCoinToCoin [] cA cB.id cB.type)
        cB cA.id cA.type).length = 1 ∧
     (handleCollisionCoinToCoin (handleCollisionCoinToCoin [] cB cA.id cA.type)
        cA cB.id cB.type).length = 1) ∧
    (∀ k q, (k, q) ∈ handleCollisionCoinToCoin (handleCollisionCoinToCoin [] cA cB.id cB.type)
        cB cA.id cA.type →
      strLt q.id1 q.id2 = true ∧ k = interactionKey q.id1 q.id2 q.result ∧ q.result = r ∧
      ((q.id1 = cA.id ∧ q.id2 = cB.id) ∨ (q.id1 = cB.id ∧ q.id2 = cA.id))) := by
  have hBA : interactionResults cB.type cA.type = some r := interaction_table_symm _ _ _ hAB
  rcases strLt_total hne with hlt | hlt
  · have hskip : strLt cB.id cA.id = false := strLt_asymm hlt
    have h1 : handleCollisionCoinToCoin [] cA cB.id cB.type
        = queueInteraction [] cA.id cB.id r := handleCollision_enqueues _ _ _ _ _ hAB hlt
    have h2 : handleCollisionCoinToCoin (handleCollisionCoinToCoin [] cA cB.id cB.type)
        cB cA.id cA.type = queueInteraction [] cA.id cB.id r := by
      rw [h1]; exact handleCollision_skips_of_not_lt _ _ _ _ hskip
    have h3 : handleCollisionCoinToCoin [] cB cA.id cA.type = [] :=
      handleCollision_skips_of_not_lt _ _ _ _ hskip
    have h4 : handleCollisionCoinToCoin (handleCollisionCoinToCoin [] cB cA.id cA.type)
        cA cB.id cB.type = queueInteraction [] cA.id cB.id r := by
      rw [h3]; exact handleCollision_enqueues _ _ _ _ _ hAB hlt
    refine ⟨⟨by rw [h2]; rfl, by rw [h4]; rfl⟩, ?_⟩
    intro k q hmem
    rw [h2] at hmem
    have : (k, q) = (interactionKey cA.id cB.id r, ⟨cA.id, cB.id, r⟩) := by
      simpa [queueInteraction, mapSet] using hmem
    injection this with hk hq
    subst hq
    exact ⟨hlt, by rw [hk], rfl, Or.inl ⟨rfl, rfl⟩⟩
  · have hskip : strLt cA.id cB.id = false := strLt_asymm hlt
    have h1 : handleCollisionCoinToCoin [] cB cA.id cA.type
        = queueInteraction [] cB.id cA.id r := handleCollision_enqueues _ _ _ _ _ hBA hlt
    have h2 : handleCollisionCoinToCoin (handleCollisionCoinToCoin [] cB cA.id cA.type)
        cA cB.id cB.type = queueInteraction [] cB.id cA.id r := by
      rw [h1]; exact handleCollision_skips_of_not_lt _ _ _ _ hskip
    have h3 : handleCollisionCoinToCoin [] cA cB.id cB.type = [] :=
      handleCollision_skips_of_not_lt _ _ _ _ hskip
    have h4 : handleCollisionCoinToCoin (handleCollisionCoinToCoin [] cA cB.id cB.type)
        cB cA.id cA.type = queueInteraction [] cB.id cA.id r := by
      rw [h3]; exact handleCollision_enqueues _ _ _ _ _ hBA hlt
    refine ⟨⟨by rw [h4]; rfl, by rw [h2]; rfl⟩, ?_⟩
    intro k q hmem
    rw [h4] at hmem
    have : (k, q) = (interactionKey cB.id cA.id r, ⟨cB.id, cA.id, r⟩) := by
      simpa [queueInteraction, mapSet] using hmem
    injection this with hk hq
    subst hq
    exact ⟨hlt, by rw [hk], rfl, Or.inr ⟨rfl, rfl⟩⟩

/-! ### Registry invariant (C2) -/

/-- The registry invariant: the ordered id-list and the id-to-entity map
name exactly the same ids, each exactly once. -/
def RegistryWF (r : Registry) : Prop :=
  r.coinOrder.Nodup ∧ (jsKeys r.coinMap).Nodup ∧
  (∀ id ∈ r.coinOrder, id ∈ jsKeys r.coinMap) ∧
  (∀ id ∈ jsKeys r.coinMap, id ∈ r.coinOrder)

instance (r : Registry) : Decidable (RegistryWF r) := by
  unfold RegistryWF; infer_instance

lemma nodup_append_singleton {α : Type} {l : List α} {a : α}
    (h : l.Nodup) (ha : a ∉ l) : (l ++ [a]).Nodup := by
  rw [List.nodup_append]
  exact ⟨h, List.nodup_singleton a, by
    intro x hx hx'
    rw [List.mem_singleton] at hx'
    exact ha (hx' ▸ hx)⟩

lemma wf_spawn {r : Registry} (h : RegistryWF r) (c : CoinData)
    (hf : c.id ∉ jsKeys r.coinMap) : RegistryWF (spawnCoinRegistry r c) := by
  obtain ⟨hOrd, hKeys, hOK, hKO⟩ := h
  have hco : c.id ∉ r.coinOrder := fun hc => hf (hOK _ hc)
  have hkeys' : jsKeys (mapSet r.coinMap c.id c) = jsKeys r.coinMap ++ [c.id] :=
    keys_mapSet_of_not_mem c hf
  refine ⟨?_, ?_, ?_, ?_⟩
  · exact nodup_append_singleton hOrd hco
  · show (jsKeys (mapSet r.coinMap c.id c)).Nodup
    rw [hkeys']
    exact nodup_append_singleton hKeys hf
  · intro x hx
    show x ∈ jsKeys (mapSet r.coinMap c.id c)
    rw [hkeys']
    rcases List.mem_append.mp hx with h' | h'
    · exact List.mem_append.mpr (Or.inl (hOK _ h'))
    · exact List.mem_append.mpr (Or.inr h')
  · intro x hx
    rw [show jsKeys (spawnCoinRegistry r c).coinMap = jsKeys r.coinMap ++ [c.id] from hkeys'] at hx
    rcases List.mem_append.mp hx with h' | h'
    · exact List.mem_append.mpr (Or.inl (hKO _ h'))
    · exact List.mem_append.mpr (Or.inr h')

lemma wf_split {r : Registry} (h : RegistryWF r) (id : String) (e : SplitEvent)
    (hf : e.cloneId ∉ jsKeys r.coinMap) : RegistryWF (handleSplit r id e) := by
  obtain ⟨hOrd, hKeys, hOK, hKO⟩ := h
  unfold handleSplit
  cases hl : r.coinMap.lookup id with
  | none => exact ⟨hOrd, hKeys, hOK, hKO⟩
  | some original =>
    by_cases hs : original.hasSplit
    · simp only [hs, if_true]
      exact ⟨hOrd, hKeys, hOK, hKO⟩
    · simp only [hs, if_false, Bool.false_eq_true]
      have hidmem : id ∈ jsKeys r.coinMap :=
        (lookup_isSome_iff_mem_keys _ _).mp (by simp [hl])
      have hkeys1 : jsKeys (mapSet r.coinMap id { original with hasSplit := true })
          = jsKeys r.coinMap := keys_mapSet_of_mem _ hidmem
      have hf1 : e.cloneId ∉ jsKeys (mapSet r.coinMap id { original with hasSplit := true }) := by
        rw [hkeys1]; exact hf
      have hkeys2 : jsKeys (mapSet (mapSet r.coinMap id { original with hasSplit := true })
          e.cloneId { id := e.cloneId, type := .SPLITTER, hasSplit := true
                      position := ⟨e.pos.x, e.pos.y + 1, e.pos.z⟩
                      rotation := ⟨0, e.rotY, 0⟩ })
          = jsKeys r.coinMap ++ [e.cloneId] := by
        rw [keys_mapSet_of_not_mem _ hf1, hkeys1]
      have hco : e.cloneId ∉ r.coinOrder := fun hc => hf (hOK _ hc)
      refine ⟨nodup_append_singleton hOrd hco, ?_, ?_, ?_⟩
      · show (jsKeys _).Nodup
        rw [hkeys2]
        exact nodup_append_singleton hKeys hf
      · intro x hx
        show x ∈ jsKeys _
        rw [hkeys2]
        rcases List.mem_append.mp hx with h' | h'
        · exact List.mem_append.mpr (Or.inl (hOK _ h'))
        · exact List.mem_append.mpr (Or.inr h')
      · intro x hx
        rw [show jsKeys _ = jsKeys r.coinMap ++ [e.cloneId] from hkeys2] at hx
        rcases List.mem_append.mp hx with h' | h'
        · exact List.mem_append.mpr (Or.inl (hKO _ h'))
        · exact List.mem_append.mpr (Or.inr h')

lemma wf_interaction {r : Registry} (h : RegistryWF r) (id1 id2 : String)
    (t : CoinType) (mid : String) (hf : mid ∉ jsKeys r.coinMap) :
    RegistryWF (handleCoinInteraction r id1 id2 t mid) := by
  obtain ⟨hOrd, hKeys, hOK, hKO⟩ := h
  unfold handleCoinInteraction
  split
  case _ coin1 coin2 heq1 heq2 =>
    have hmo : mid ∉ r.coinOrder := fun hm => hf (hOK _ hm)
    have hkeysd : jsKeys (mapDelete (mapDelete r.coinMap id1) id2)
        = ((jsKeys r.coinMap).filter (fun x => x ≠ id1)).filter (fun x => x ≠ id2) := by
      rw [keys_mapDelete, keys_mapDelete]
    have hmidd : mid ∉ jsKeys (mapDelete (mapDelete r.coinMap id1) id2) := by
      rw [hkeysd]
      intro hm
      exact hf (List.mem_of_mem_filter (List.mem_of_mem_filter hm))
    have hkeys' : jsKeys (mapSet (mapDelete (mapDelete r.coinMap id1) id2) mid
        { id := mid, type := t
          position := midpoint3 coin1.position coin2.position
          rotation := ⟨0, 0, 0⟩ })
        = (((jsKeys r.coinMap).filter (fun x => x ≠ id1)).filter (fun x => x ≠ id2)) ++ [mid] := by
      rw [keys_mapSet_of_not_mem _ hmidd, hkeysd]
    refine ⟨?_, ?_, ?_, ?_⟩
    · refine nodup_append_singleton (hOrd.filter _) ?_
      intro hm
      exact hmo (List.mem_of_mem_filter hm)
    · show (jsKeys _).Nodup
      rw [hkeys']
      refine nodup_append_singleton ((hKeys.filter _).filter _) ?_
      intro hm
      exact hf (List.mem_of_mem_filter (List.mem_of_mem_filter hm))
    · intro x hx
      show x ∈ jsKeys _
      rw [hkeys']
      rcases List.mem_append.mp hx with h' | h'
      · rw [List.mem_filter] at h'
        obtain ⟨hxo, hp⟩ := h'
        simp only [decide_eq_true_eq] at hp
        refine List.mem_append.mpr (Or.inl ?_)
        rw [List.mem_filter]
        refine ⟨?_, by simp [hp.2]⟩
        rw [List.mem_filter]
        exact ⟨hOK _ hxo, by simp [hp.1]⟩
      · exact List.mem_append.mpr (Or.inr h')
    · intro x hx
      rw [show jsKeys _ = (((jsKeys r.coinMap).filter (fun x => x ≠ id1)).filter
          (fun x => x ≠ id2)) ++ [mid] from hkeys'] at hx
      rcases List.mem_append.mp hx with h' | h'
      · rw [List.mem_filter] at h'
        obtain ⟨h'', hp2⟩ := h'
        rw [List.mem_filter] at h''
        obtain ⟨hxk, hp1⟩ := h''
        simp only [decide_eq_true_eq] at hp1 hp2
        refine List.mem_append.mpr (Or.inl ?_)
        rw [List.mem_filter]
        exact ⟨hKO _ hxk, by simp [hp1, hp2]⟩
      · exact List.mem_append.mpr (Or.inr h')
  case _ =>
    exact ⟨hOrd, hKeys, hOK, hKO⟩

lemma wf_transmute {r : Registry} (h : RegistryWF r) (targetId : String) :
    RegistryWF (handleTransmute r targetId) := by
  obtain ⟨hOrd, hKeys, hOK, hKO⟩ := h
  unfold handleTransmute
  cases hl : r.coinMap.lookup targetId with
  | none => exact ⟨hOrd, hKeys, hOK, hKO⟩
  | some target =>
    show RegistryWF (if target.type = CoinType.GOLD then r
      else { r with coinMap := mapSet r.coinMap targetId { target with type := CoinType.GOLD } })
    by_cases hG : target.type = CoinType.GOLD
    · rw [if_pos hG]
      exact ⟨hOrd, hKeys, hOK, hKO⟩
    · rw [if_neg hG]
      have hmem : targetId ∈ jsKeys r.coinMap :=
        (lookup_isSome_iff_mem_keys _ _).mp (by simp [hl])
      have hkeys' : jsKeys (mapSet r.coinMap targetId { target with type := .GOLD })
          = jsKeys r.coinMap := keys_mapSet_of_mem _ hmem
      refine ⟨hOrd, ?_, ?_, ?_⟩
      · show (jsKeys _).Nodup
        rw [hkeys']
        exact hKeys
      · intro x hx
        show x ∈ jsKeys _
        rw [hkeys']
        exact hOK _ hx
      · intro x hx
        rw [show jsKeys _ = jsKeys r.coinMap from hkeys'] at hx
        exact hKO _ hx

lemma wf_explode {r : Registry} (h : RegistryWF r) (id : String) :
    RegistryWF (handleExplode r id) := by
  obtain ⟨hOrd, hKeys, hOK, hKO⟩ := h
  unfold handleExplode
  by_cases hs : (r.coinMap.lookup id).isSome = true
  · rw [if_pos hs]
    refine ⟨hOrd.filter _, ?_, ?_, ?_⟩
    · show (jsKeys _).Nodup
      rw [keys_mapDelete]
      exact hKeys.filter _
    · intro x hx
      show x ∈ jsKeys _
      rw [keys_mapDelete]
      rw [List.mem_filter] at hx ⊢
      exact ⟨hOK _ hx.1, hx.2⟩
    · intro x hx
      rw [show jsKeys (mapDelete r.coinMap id) = (jsKeys r.coinMap).filter (fun x => x ≠ id)
          from keys_mapDelete _ _] at hx
      rw [List.mem_filter] at hx ⊢
      exact ⟨hKO _ hx.1, hx.2⟩
  · rw [if_neg hs]
    exact ⟨hOrd, hKeys, hOK, hKO⟩

lemma collectRegistry_eq_explode : collectRegistry = handleExplode := rfl

lemma wf_addCoins {r : Registry} (h : RegistryWF r) (cs : List CoinData)
    (hnd : (cs.map CoinData.id).Nodup)
    (hdisj : ∀ c ∈ cs, c.id ∉ jsKeys r.coinMap) :
    RegistryWF (addCoinsRegistry r cs) := by
  induction cs generalizing r with
  | nil =>
    have he : addCoinsRegistry r [] = r := by
      simp [addCoinsRegistry]
    rw [he]
    exact h
  | cons c cs ih =>
    have hstep : addCoinsRegistry r (c :: cs) = addCoinsRegistry (spawnCoinRegistry r c) cs := by
      simp [addCoinsRegistry, spawnCoinRegistry]
    rw [hstep]
    rw [List.map_cons, List.nodup_cons] at hnd
    refine ih (wf_spawn h c (hdisj c (List.mem_cons_self c cs))) hnd.2 ?_
    intro c' hc'
    have hk : jsKeys (spawnCoinRegistry r c).coinMap = jsKeys r.coinMap ++ [c.id] :=
      keys_mapSet_of_not_mem c (hdisj c (List.mem_cons_self c cs))
    rw [hk]
    intro hm
    rcases List.mem_append.mp hm with h' | h'
    · exact hdisj c' (List.mem_cons_of_mem c hc') h'
    · rw [List.mem_singleton] at h'
      exact hnd.1 (h' ▸ List.mem_map_of_mem CoinData.id hc')

/-- C2: every registry operation — spawn, split, merge, transmute, explode,
collect, jackpot burst, initial fill — preserves the invariant that the
ordered id-list and the id-to-entity map contain exactly the same ids,
each exactly once.  The randomly generated ids are parameters of the
embedding and are assumed fresh (the source treats them as globally unique). -/
theorem registry_operations_preserve_invariant (r : Registry) (h : RegistryWF r) :
    (∀ c : CoinData, c.id ∉ jsKeys r.coinMap → RegistryWF (spawnCoinRegistry r c)) ∧
    (∀ (id : String) (e : SplitEvent), e.cloneId ∉ jsKeys r.coinMap →
        RegistryWF (handleSplit r id e)) ∧
    (∀ (id1 id2 mid : String) (t : CoinType), mid ∉ jsKeys r.coinMap →
        RegistryWF (handleCoinInteraction r id1 id2 t mid)) ∧
    (∀ id, RegistryWF (handleTransmute r id)) ∧
    (∀ id, RegistryWF (handleExplode r id)) ∧
    (∀ id, RegistryWF (collectRegistry r id)) ∧
    (∀ cs : List CoinData, (cs.map CoinData.id).Nodup →
        (∀ c ∈ cs, c.id ∉ jsKeys r.coinMap) → RegistryWF (addCoinsRegistry r cs)) ∧
    (∀ cs : List CoinData, (cs.map CoinData.id).Nodup →
        RegistryWF (initialFillRegistry cs)) := by
  refine ⟨fun c hf => wf_spawn h c hf,
          fun id e hf => wf_split h id e hf,
          fun id1 id2 mid t hf => wf_interaction h id1 id2 t mid hf,
          fun id => wf_transmute h id,
          fun id => wf_explode h id,
          fun id => by rw [collectRegistry_eq_explode]; exact wf_explode h id,
          fun cs hnd hdisj => wf_addCoins h cs hnd hdisj,
          fun cs hnd => ?_⟩
  refine wf_addCoins ?_ cs hnd ?_
  · exact (by decide : RegistryWF emptyRegistry)
  · intro c _
    simp [emptyRegistry, jsKeys]

/-- Witness for C2 at a concrete one-coin registry. -/
theorem registry_operations_preserve_invariant_witness :
    RegistryWF (handleTransmute
      ⟨[("x", ⟨"x", .STANDARD, ⟨0, 0, 0⟩, ⟨0, 0, 0⟩, false, false⟩)], ["x"]⟩ "x") ∧
    RegistryWF (spawnCoinRegistry
      ⟨[("x", ⟨"x", .STANDARD, ⟨0, 0, 0⟩, ⟨0, 0, 0⟩, false, false⟩)], ["x"]⟩
      ⟨"y", .SEED, ⟨1, 2, 3⟩, ⟨0, 0, 0⟩, false, false⟩) :=
  ⟨(registry_operations_preserve_invariant _ (by decide)).2.2.2.1 "x",
   (registry_operations_preserve_invariant _ (by decide)).1
     ⟨"y", .SEED, ⟨1, 2, 3⟩, ⟨0, 0, 0⟩, false, false⟩ (by decide)⟩

/-- Witness for C1 at a concrete SEED/WATER pair. -/
theorem combine_event_enqueued_exactly_once_witness :
    (handleCollisionCoinToCoin
        (handleCollisionCoinToCoin []
          ⟨"a", .SEED, ⟨0, 0, 0⟩, ⟨0, 0, 0⟩, false, false⟩ "b" .WATER)
        ⟨"b", .WATER, ⟨1, 0, 0⟩, ⟨0, 0, 0⟩, false, false⟩ "a" .SEED).length = 1 ∧
    (handleCollisionCoinToCoin
        (handleCollisionCoinToCoin []
          ⟨"b", .WATER, ⟨1, 0, 0⟩, ⟨0, 0, 0⟩, false, false⟩ "a" .SEED)
        ⟨"a", .SEED, ⟨0, 0, 0⟩, ⟨0, 0, 0⟩, false, false⟩ "b" .WATER).length = 1 :=
  (combine_event_enqueued_exactly_once
    ⟨"a", .SEED, ⟨0, 0, 0⟩, ⟨0, 0, 0⟩, false, false⟩
    ⟨"b", .WATER, ⟨1, 0, 0⟩, ⟨0, 0, 0⟩, false, false⟩ .TREE
    (by decide) (by decide)).1

/-! ### Economy step relation and the bonus-meter invariant (C3) -/

/-- One logical transition of the economy state machine: the transitions of
App.tsx that touch `gameState`. -/
inductive GameStep : GameState → GameState → Prop where
  | collect (s : GameState) (t : CoinType) : GameStep s (handleCoinCollectedEcon s t)
  | decay (s : GameState) (delta : ℚ) : GameStep s (bonusDecayStep s delta)
  | roundEnd (s : GameState) : GameStep s (handleRoundEnd s)
  | next (s : GameState) : GameStep s (nextRound s)
  | start (s : GameState) : GameStep s startGameState
  | restart (s : GameState) : GameStep s INITIAL_STATE
  | spawn (s : GameState) (t : CoinType) (isFree : Bool) :
      GameStep s (spawnCoinEcon s t isFree)
  | buy (s : GameState) (k : ItemKind) (id : String) (idCoin : CoinType) (cost : ℚ) :
      GameStep s (buyItem s k id idCoin cost)

/-- States reachable from the initial state by the transitions above. -/
inductive ReachableGS : GameState → Prop where
  | init : ReachableGS INITIAL_STATE
  | step {s s' : GameState} : ReachableGS s → GameStep s s' → ReachableGS s'

lemma buyItem_bonus (s : GameState) (k : ItemKind) (id : String) (idCoin : CoinType)
    (cost : ℚ) : (buyItem s k id idCoin cost).bonus = s.bonus := by
  unfold buyItem
  split
  · cases k with
    | coin => rfl
    | artifact =>
      dsimp only
      split
      · rfl
      · split <;> rfl
  · rfl

lemma spawnCoinEcon_bonus (s : GameState) (t : CoinType) (isFree : Bool) :
    (spawnCoinEcon s t isFree).bonus = s.bonus := by
  unfold spawnCoinEcon
  split
  · rfl
  · split <;> rfl

lemma bonus_bounds_step {s s' : GameState} (hstep : GameStep s s')
    (h0 : 0 ≤ s.bonus) (h100 : s.bonus ≤ 100) :
    0 ≤ s'.bonus ∧ s'.bonus ≤ 100 := by
  cases hstep with
  | collect t =>
    unfold handleCoinCollectedEcon
    by_cases hb : s.bonus + 4 ≥ 100
    · rw [if_pos hb]
      show (0 : ℚ) ≤ 0 ∧ (0 : ℚ) ≤ 100
      norm_num
    · rw [if_neg hb]
      show 0 ≤ s.bonus + 4 ∧ s.bonus + 4 ≤ 100
      have := not_le.mp hb
      constructor <;> linarith
  | decay delta =>
    unfold bonusDecayStep
    by_cases hd : delta ≤ 0
    · rw [if_pos hd]
      exact ⟨h0, h100⟩
    · rw [if_neg hd]
      by_cases hb : s.bonus ≤ 0
      · rw [if_pos hb]
        exact ⟨h0, h100⟩
      · rw [if_neg hb]
        show 0 ≤ max 0 (s.bonus - 20 * delta) ∧ max 0 (s.bonus - 20 * delta) ≤ 100
        have hdelta : 0 < delta := not_le.mp hd
        refine ⟨le_max_left _ _, ?_⟩
        rw [max_le_iff]
        constructor <;> linarith
  | roundEnd =>
    unfold handleRoundEnd
    by_cases hs : s.score ≥ s.targetScore
    · rw [if_pos hs]
      show (0 : ℚ) ≤ 0 ∧ (0 : ℚ) ≤ 100
      norm_num
    · rw [if_neg hs]
      exact ⟨h0, h100⟩
  | next => exact ⟨h0, h100⟩
  | start =>
    show (0 : ℚ) ≤ 0 ∧ (0 : ℚ) ≤ 100
    norm_num
  | restart =>
    show (0 : ℚ) ≤ 0 ∧ (0 : ℚ) ≤ 100
    norm_num
  | spawn t isFree =>
    rw [spawnCoinEcon_bonus]
    exact ⟨h0, h100⟩
  | buy k id idCoin cost =>
    rw [buyItem_bonus]
    exact ⟨h0, h100⟩

/-- C3: in every reachable economy state the bonus meter lies in [0, 100];
a collection that pushes the meter to 100 or beyond resets it to 0 and
increments the bonus level by exactly 1 in the same transition; and a decay
step never drives the meter below 0. -/
theorem bonus_meter_invariant :
    (∀ s, ReachableGS s → 0 ≤ s.bonus ∧ s.bonus ≤ 100) ∧
    (∀ (s : GameState) (t : CoinType), 100 ≤ s.bonus + 4 →
        (handleCoinCollectedEcon s t).bonus = 0 ∧
        (handleCoinCollectedEcon s t).bonusLevel = s.bonusLevel + 1) ∧
    (∀ (s : GameState) (delta : ℚ), 0 ≤ s.bonus → 0 ≤ (bonusDecayStep s delta).bonus) := by
  refine ⟨?_, ?_, ?_⟩
  · intro s hreach
    induction hreach with
    | init => norm_num [INITIAL_STATE]
    | step hr hstep ih => exact bonus_bounds_step hstep ih.1 ih.2
  · intro s t hb
    unfold handleCoinCollectedEcon
    rw [if_pos (show s.bonus + 4 ≥ 100 from hb)]
    exact ⟨rfl, rfl⟩
  · intro s delta h0
    unfold bonusDecayStep
    by_cases hd : delta ≤ 0
    · rw [if_pos hd]
      exact h0
    · rw [if_neg hd]
      by_cases hb : s.bonus ≤ 0
      · rw [if_pos hb]
        exact h0
      · rw [if_neg hb]
        exact le_max_left _ _

/-- Witness for C3: the initial state, a meter-filling collection, and a
decay step at a concrete state. -/
theorem bonus_meter_invariant_witness :
    (0 ≤ INITIAL_STATE.bonus ∧ INITIAL_STATE.bonus ≤ 100) ∧
    ((handleCoinCollectedEcon { INITIAL_STATE with bonus := 96 } .STANDARD).bonus = 0 ∧
     (handleCoinCollectedEcon { INITIAL_STATE with bonus := 96 } .STANDARD).bonusLevel = 2) ∧
    (0 ≤ (bonusDecayStep { INITIAL_STATE with bonus := 50 } 1).bonus) :=
  ⟨bonus_meter_invariant.1 INITIAL_STATE ReachableGS.init,
   bonus_meter_invariant.2.1 { INITIAL_STATE with bonus := 96 } .STANDARD (by norm_num [INITIAL_STATE]),
   bonus_meter_invariant.2.2 { INITIAL_STATE with bonus := 50 } 1 (by norm_num [INITIAL_STATE])⟩

/-! ### Stale-event handling (C4) -/

/-- C4 counterexample: calling the collect handler with an id absent from the
registry leaves the registry unchanged but still pays out the economy update —
cash moves from 100 to 110 (and the bonus meter from 0 to 4), so the handler is
not a complete no-op on a stale id. -/
theorem collect_of_absent_id_still_pays :
    emptyRegistry.coinMap.lookup "ghost" = none ∧
    (handleCoinCollected emptyRegistry INITIAL_STATE "ghost" CoinType.STANDARD).1 = emptyRegistry ∧
    (handleCoinCollected emptyRegistry INITIAL_STATE "ghost" CoinType.STANDARD).2.cash = 110 ∧
    INITIAL_STATE.cash = 100 ∧
    (handleCoinCollected emptyRegistry INITIAL_STATE "ghost" CoinType.STANDARD).2.bonus = 4 ∧
    INITIAL_STATE.bonus = 0 := by
  refine ⟨rfl, rfl, ?_, rfl, ?_, rfl⟩ <;>
    norm_num [handleCoinCollected, handleCoinCollectedEcon, INITIAL_STATE, coinValue,
      artifactLevel]

/-- C4 amended: for combine, split, transmute and explode an absent id makes
the handler a complete no-op; for collect an absent id leaves the registry
unchanged, but the economy update (score, cash, bonus, bonusLevel) is still
applied unconditionally. -/
theorem absent_id_handlers_skip (reg : Registry) (g : GameState) (id : String)
    (hid : reg.coinMap.lookup id = none) :
    (∀ (id2 : String) (t : CoinType) (mid : String),
        handleCoinInteraction reg id id2 t mid = reg) ∧
    (∀ (id1 : String) (t : CoinType) (mid : String),
        handleCoinInteraction reg id1 id t mid = reg) ∧
    (∀ e : SplitEvent, handleSplit reg id e = reg) ∧
    handleTransmute reg id = reg ∧
    handleExplode reg id = reg ∧
    (∀ t : CoinType, (handleCoinCollected reg g id t).1 = reg) ∧
    (∀ t : CoinType, (handleCoinCollected reg g id t).2 = handleCoinCollectedEcon g t) := by
  refine ⟨?_, ?_, ?_, ?_, ?_, ?_, ?_⟩
  · intro id2 t mid
    unfold handleCoinInteraction
    split
    case _ c1 c2 heq1 heq2 => rw [hid] at heq1; cases heq1
    case _ => rfl
  · intro id1 t mid
    unfold handleCoinInteraction
    split
    case _ c1 c2 heq1 heq2 => rw [hid] at heq2; cases heq2
    case _ => rfl
  · intro e
    unfold handleSplit
    rw [hid]
  · unfold handleTransmute
    rw [hid]
  · unfold handleExplode
    rw [hid]
    rfl
  · intro t
    show collectRegistry reg id = reg
    rw [collectRegistry_eq_explode]
    unfold handleExplode
    rw [hid]
    rfl
  · intro t
    rfl

/-- Witness for C4 (amended) at the empty registry. -/
theorem absent_id_handlers_skip_witness :
    handleTransmute emptyRegistry "ghost" = emptyRegistry ∧
    (handleCoinCollected emptyRegistry INITIAL_STATE "ghost" CoinType.STANDARD).1
      = emptyRegistry :=
  ⟨(absent_id_handlers_skip emptyRegistry INITIAL_STATE "ghost" (by decide)).2.2.2.1,
   (absent_id_handlers_skip emptyRegistry INITIAL_STATE "ghost" (by decide)).2.2.2.2.2.1
     CoinType.STANDARD⟩

/-! ### Explosion resolver division by zero (C5) -/

/-- C5: the explosion resolver has no distance-zero guard.  A body distinct
from the bomb but located exactly at the detonation center passes the
`dist < explosionRadius` processing guard while the direction divisor `dist`
is exactly zero, so the impulse computation divides by zero (`0/0 = NaN`
in the source's JS arithmetic), contradicting the spec's requirement that
distance-0 bodies be guarded. -/
theorem explosion_zero_distance_unguarded :
    explosionBodyProcessed ⟨0, 0, 0⟩ ⟨0, 0, 0⟩ ∧
    explosionDivisorIsZero ⟨0, 0, 0⟩ ⟨0, 0, 0⟩ := by
  constructor <;>
    norm_num [explosionBodyProcessed, explosionDivisorIsZero, distSq3, explosionRadius]

/-! ### Splitter splits at most once (C6) -/

/-- A sequence of queued split events targeting the same source id, applied
over any number of ticks. -/
def applySplits (r : Registry) (id : String) (evs : List SplitEvent) : Registry :=
  evs.foldl (fun s e => handleSplit s id e) r

lemma handleSplit_of_none {r : Registry} {id : String} (e : SplitEvent)
    (hl : r.coinMap.lookup id = none) : handleSplit r id e = r := by
  unfold handleSplit
  rw [hl]

lemma handleSplit_of_flagged {r : Registry} {id : String} {c : CoinData} (e : SplitEvent)
    (hl : r.coinMap.lookup id = some c) (hs : c.hasSplit = true) :
    handleSplit r id e = r := by
  unfold handleSplit
  rw [hl]
  simp [hs]

lemma handleSplit_order_succ {r : Registry} {id : String} {c : CoinData} (e : SplitEvent)
    (hl : r.coinMap.lookup id = some c) (hs : c.hasSplit = false) :
    (handleSplit r id e).coinOrder = r.coinOrder ++ [e.cloneId] := by
  unfold handleSplit
  rw [hl]
  simp [hs]

lemma handleSplit_flag_after {r : Registry} {id : String} {c : CoinData} (e : SplitEvent)
    (hl : r.coinMap.lookup id = some c) (hs : c.hasSplit = false) :
    ∃ c', (handleSplit r id e).coinMap.lookup id = some c' ∧ c'.hasSplit = true := by
  unfold handleSplit
  rw [hl]
  simp only [hs, Bool.false_eq_true, if_false]
  by_cases hcid : id = e.cloneId
  · refine ⟨{ id := e.cloneId, type := .SPLITTER, hasSplit := true
              position := ⟨e.pos.x, e.pos.y + 1, e.pos.z⟩
              rotation := ⟨0, e.rotY, 0⟩ }, ?_, rfl⟩
    rw [hcid]
    exact lookup_mapSet_self _ _ _
  · refine ⟨{ c with hasSplit := true }, ?_, rfl⟩
    rw [lookup_mapSet_ne _ _ hcid]
    exact lookup_mapSet_self _ _ _

lemma applySplits_flagged {r : Registry} {id : String} {c : CoinData}
    (evs : List SplitEvent)
    (hl : r.coinMap.lookup id = some c) (hs : c.hasSplit = true) :
    applySplits r id evs = r := by
  induction evs with
  | nil => rfl
  | cons e evs ih =>
    show applySplits (handleSplit r id e) id evs = r
    rw [handleSplit_of_flagged e hl hs]
    exact ih

lemma applySplits_length (r : Registry) (id : String) (evs : List SplitEvent) :
    (applySplits r id evs).coinOrder.length ≤ r.coinOrder.length + 1 := by
  induction evs generalizing r with
  | nil => exact Nat.le_succ _
  | cons e evs ih =>
    show (applySplits (handleSplit r id e) id evs).coinOrder.length ≤ r.coinOrder.length + 1
    cases hl : r.coinMap.lookup id with
    | none =>
      rw [handleSplit_of_none e hl]
      exact ih r
    | some c =>
      by_cases hs : c.hasSplit = true
      · rw [handleSplit_of_flagged e hl hs]
        exact ih r
      · have hs' : c.hasSplit = false := by
          cases hbs : c.hasSplit
          · rfl
          · exact absurd hbs hs
        obtain ⟨c', hc', hflag⟩ := handleSplit_flag_after e hl hs'
        rw [applySplits_flagged evs hc' hflag, handleSplit_order_succ e hl hs']
        simp

/-- C6: a splitter whose `hasSplit` flag is latched never produces another
clone — any further sequence of split events for its id leaves the registry
untouched; across any sequence of split events for one id at most one clone
is ever inserted; and the one clone is created with `hasSplit = true`, so it
can itself never split. -/
theorem splitter_splits_at_most_once (r : Registry) (id : String) (evs : List SplitEvent) :
    (∀ c, r.coinMap.lookup id = some c → c.hasSplit = true → applySplits r id evs = r) ∧
    (applySplits r id evs).coinOrder.length ≤ r.coinOrder.length + 1 ∧
    (∀ (c : CoinData) (e : SplitEvent), r.coinMap.lookup id = some c → c.hasSplit = false →
        (handleSplit r id e).coinMap.lookup e.cloneId
          = some { id := e.cloneId, type := .SPLITTER, hasSplit := true
                   position := ⟨e.pos.x, e.pos.y + 1, e.pos.z⟩
                   rotation := ⟨0, e.rotY, 0⟩ }) := by
  refine ⟨fun c hl hs => applySplits_flagged evs hl hs, applySplits_length r id evs, ?_⟩
  intro c e hl hs
  unfold handleSplit
  rw [hl]
  simp only [hs, Bool.false_eq_true, if_false]
  exact lookup_mapSet_self _ _ _

/-- Witness for C6: a flagged splitter ignores further split events, and a
two-event sequence on a fresh splitter grows the registry by at most one. -/
theorem splitter_splits_at_most_once_witness :
    applySplits ⟨[("s", ⟨"s", .SPLITTER, ⟨0, 0, 0⟩, ⟨0, 0, 0⟩, true, false⟩)], ["s"]⟩ "s"
        [⟨⟨1, 1, 1⟩, 0, "c1"⟩]
      = ⟨[("s", ⟨"s", .SPLITTER, ⟨0, 0, 0⟩, ⟨0, 0, 0⟩, true, false⟩)], ["s"]⟩ ∧
    (applySplits ⟨[("s", ⟨"s", .SPLITTER, ⟨0, 0, 0⟩, ⟨0, 0, 0⟩, false, false⟩)], ["s"]⟩ "s"
        [⟨⟨1, 1, 1⟩, 0, "c1"⟩, ⟨⟨2, 2, 2⟩, 0, "c2"⟩]).coinOrder.length ≤ 2 :=
  ⟨(splitter_splits_at_most_once _ "s" _).1
      ⟨"s", .SPLITTER, ⟨0, 0, 0⟩, ⟨0, 0, 0⟩, true, false⟩ (by decide) rfl,
   (splitter_splits_at_most_once
      ⟨[("s", ⟨"s", .SPLITTER, ⟨0, 0, 0⟩, ⟨0, 0, 0⟩, false, false⟩)], ["s"]⟩ "s"
      [⟨⟨1, 1, 1⟩, 0, "c1"⟩, ⟨⟨2, 2, 2⟩, 0, "c2"⟩]).2.1⟩

/-! ### Combine removes both reactants and inserts the product (C7) -/

/-- C7: applying a combine event whose two input ids are both present removes
both reactants and inserts exactly one new entity — fresh id, the event's
product type, the componentwise midpoint position, zero rotation — shrinking
the map by one entry; if either input id is absent the registry is unchanged. -/
theorem combine_merges_reactants (r : Registry) (id1 id2 mergedId : String)
    (t : CoinType) (hWF : RegistryWF r) :
    (∀ c1 c2, r.coinMap.lookup id1 = some c1 → r.coinMap.lookup id2 = some c2 →
        id1 ≠ id2 → mergedId ∉ jsKeys r.coinMap →
        (handleCoinInteraction r id1 id2 t mergedId).coinMap.lookup id1 = none ∧
        (handleCoinInteraction r id1 id2 t mergedId).coinMap.lookup id2 = none ∧
        (handleCoinInteraction r id1 id2 t mergedId).coinMap.lookup mergedId
          = some { id := mergedId, type := t
                   position := midpoint3 c1.position c2.position
                   rotation := ⟨0, 0, 0⟩ } ∧
        (handleCoinInteraction r id1 id2 t mergedId).coinMap.length + 1
          = r.coinMap.length) ∧
    ((r.coinMap.lookup id1 = none ∨ r.coinMap.lookup id2 = none) →
        handleCoinInteraction r id1 id2 t mergedId = r) := by
  constructor
  · intro c1 c2 h1 h2 hne hf
    have hmem1 : id1 ∈ jsKeys r.coinMap :=
      (lookup_isSome_iff_mem_keys _ _).mp (by simp [h1])
    have hmem2 : id2 ∈ jsKeys r.coinMap :=
      (lookup_isSome_iff_mem_keys _ _).mp (by simp [h2])
    have hm1 : id1 ≠ mergedId := fun he => hf (he ▸ hmem1)
    have hm2 : id2 ≠ mergedId := fun he => hf (he ▸ hmem2)
    have hr' : handleCoinInteraction r id1 id2 t mergedId =
        { coinMap := mapSet (mapDelete (mapDelete r.coinMap id1) id2) mergedId
            { id := mergedId, type := t
              position := midpoint3 c1.position c2.position
              rotation := ⟨0, 0, 0⟩ }
          coinOrder :=
            (r.coinOrder.filter (fun coinId => coinId ≠ id1 ∧ coinId ≠ id2)) ++ [mergedId] } := by
      unfold handleCoinInteraction
      rw [h1, h2]
    rw [hr']
    have hfd : mergedId ∉ jsKeys (mapDelete (mapDelete r.coinMap id1) id2) := by
      rw [keys_mapDelete, keys_mapDelete]
      intro hm
      exact hf (List.mem_of_mem_filter (List.mem_of_mem_filter hm))
    refine ⟨?_, ?_, ?_, ?_⟩
    · rw [lookup_mapSet_ne _ _ hm1, lookup_mapDelete_ne _ (Ne.symm (Ne.symm hne)),
        lookup_mapDelete_self]
    · rw [lookup_mapSet_ne _ _ hm2, lookup_mapDelete_self]
    · exact lookup_mapSet_self _ _ _
    · obtain ⟨_, hKeys, _, _⟩ := hWF
      have hlen1 : (mapDelete r.coinMap id1).length + 1 = r.coinMap.length :=
        length_mapDelete_of_nodup hKeys hmem1
      have hmem2' : id2 ∈ jsKeys (mapDelete r.coinMap id1) := by
        rw [← lookup_isSome_iff_mem_keys, lookup_mapDelete_ne _ (Ne.symm hne), h2]
        rfl
      have hnd1 : (jsKeys (mapDelete r.coinMap id1)).Nodup := by
        rw [keys_mapDelete]
        exact hKeys.filter _
      have hlen2 : (mapDelete (mapDelete r.coinMap id1) id2).length + 1
          = (mapDelete r.coinMap id1).length :=
        length_mapDelete_of_nodup hnd1 hmem2'
      have hlen3 := length_mapSet_of_not_mem
        (β := CoinData)
        ({ id := mergedId, type := t
           position := midpoint3 c1.position c2.position
           rotation := ⟨0, 0, 0⟩ }) hfd
      rw [hlen3]
      omega
  · intro hor
    unfold handleCoinInteraction
    split
    case _ c1 c2 heq1 heq2 =>
      rcases hor with h | h
      · rw [h] at heq1; cases heq1
      · rw [h] at heq2; cases heq2
    case _ => rfl

/-- Witness for C7: merging a SEED at the origin with a WATER at (2,4,6)
produces a TREE at (1,2,3) and removes both inputs. -/
theorem combine_merges_reactants_witness :
    (handleCoinInteraction
        ⟨[("a", ⟨"a", .SEED, ⟨0, 0, 0⟩, ⟨0, 0, 0⟩, false, false⟩),
          ("b", ⟨"b", .WATER, ⟨2, 4, 6⟩, ⟨0, 0, 0⟩, false, false⟩)], ["a", "b"]⟩
        "a" "b" .TREE "m").coinMap.lookup "m"
      = some ⟨"m", .TREE, ⟨1, 2, 3⟩, ⟨0, 0, 0⟩, false, false⟩ ∧
    (handleCoinInteraction
        ⟨[("a", ⟨"a", .SEED, ⟨0, 0, 0⟩, ⟨0, 0, 0⟩, false, false⟩),
          ("b", ⟨"b", .WATER, ⟨2, 4, 6⟩, ⟨0, 0, 0⟩, false, false⟩)], ["a", "b"]⟩
        "a" "b" .TREE "m").coinMap.lookup "a" = none := by
  have h := (combine_merges_reactants
      ⟨[("a", ⟨"a", .SEED, ⟨0, 0, 0⟩, ⟨0, 0, 0⟩, false, false⟩),
        ("b", ⟨"b", .WATER, ⟨2, 4, 6⟩, ⟨0, 0, 0⟩, false, false⟩)], ["a", "b"]⟩
      "a" "b" "m" .TREE (by decide)).1
      ⟨"a", .SEED, ⟨0, 0, 0⟩, ⟨0, 0, 0⟩, false, false⟩
      ⟨"b", .WATER, ⟨2, 4, 6⟩, ⟨0, 0, 0⟩, false, false⟩
      (by decide) (by decide) (by decide) (by decide)
  refine ⟨?_, h.1⟩
  rw [h.2.2.1]
  norm_num [midpoint3]

/-! ### Collection economics (C8) -/

/-- C8: collecting a coin adds its configured value to cash and
`floor(score_base * 1.5^multLevel * (1 + 0.1*(bonusLevel-1)))` to score, and
raises the bonus meter by the flat 4 whenever that does not fill the meter. -/
theorem collect_awards_value_score_bonus (s : GameState) (t : CoinType) :
    (handleCoinCollectedEcon s t).cash = s.cash + coinValue t ∧
    (handleCoinCollectedEcon s t).score = s.score +
      (((Int.floor (coinScore t * (3 / 2) ^ artifactLevel s.artifacts "mult"
          * (1 + (1 / 10) * ((s.bonusLevel : ℚ) - 1)))) : ℤ) : ℚ) ∧
    (s.bonus + 4 < 100 → (handleCoinCollectedEcon s t).bonus = s.bonus + 4) := by
  unfold handleCoinCollectedEcon
  by_cases hb : s.bonus + 4 ≥ 100
  · rw [if_pos hb]
    exact ⟨rfl, rfl, fun hlt => absurd hb (not_le.mpr hlt)⟩
  · rw [if_neg hb]
    exact ⟨rfl, rfl, fun _ => rfl⟩

/-- Witness for C8, the spec's scenario: from cash 100, score 0, bonus 0 and
no artifacts, collecting a STANDARD coin (value 10, score 100) yields
cash 110, score 100, bonus 4. -/
theorem collect_awards_value_score_bonus_witness :
    (handleCoinCollectedEcon { INITIAL_STATE with phase := .PLAYING } .STANDARD).cash = 110 ∧
    (handleCoinCollectedEcon { INITIAL_STATE with phase := .PLAYING } .STANDARD).score = 100 ∧
    (handleCoinCollectedEcon { INITIAL_STATE with phase := .PLAYING } .STANDARD).bonus = 4 := by
  have h := collect_awards_value_score_bonus { INITIAL_STATE with phase := .PLAYING } .STANDARD
  refine ⟨?_, ?_, ?_⟩
  · rw [h.1]
    norm_num [INITIAL_STATE, coinValue]
  · rw [h.2.1]
    norm_num [INITIAL_STATE, coinScore, artifactLevel]
  · rw [h.2.2 (by norm_num [INITIAL_STATE])]
    norm_num [INITIAL_STATE]

/-! ### Artifact purchase pricing (C9) -/

lemma artifactLevel_cons_eq {a : Artifact} {arts : List Artifact} {id : String}
    (h : a.id = id) : artifactLevel (a :: arts) id = a.level := by
  unfold artifactLevel
  rw [List.find?_cons_of_pos _ (by simp [h])]

lemma artifactLevel_cons_ne {a : Artifact} {arts : List Artifact} {id : String}
    (h : ¬ a.id = id) : artifactLevel (a :: arts) id = artifactLevel arts id := by
  unfold artifactLevel
  rw [List.find?_cons_of_neg _ (by simp [h])]

lemma artifactLevel_bump (arts : List Artifact) (id : String)
    (h : (arts.find? (fun a => a.id = id)).isSome = true) :
    artifactLevel (bumpFirstArtifact arts id) id = artifactLevel arts id + 1 := by
  induction arts with
  | nil => simp [List.find?] at h
  | cons a arts ih =>
    by_cases ha : a.id = id
    · rw [show bumpFirstArtifact (a :: arts) id = { a with level := a.level + 1 } :: arts by
        unfold bumpFirstArtifact; rw [if_pos ha]]
      rw [artifactLevel_cons_eq (show ({ a with level := a.level + 1 } : Artifact).id = id from ha),
        artifactLevel_cons_eq ha]
    · rw [show bumpFirstArtifact (a :: arts) id = a :: bumpFirstArtifact arts id by
        simp only [bumpFirstArtifact]; rw [if_neg ha]]
      rw [artifactLevel_cons_ne ha, artifactLevel_cons_ne ha]
      refine ih ?_
      rw [List.find?_cons_of_neg _ (by simp [ha])] at h
      exact h

lemma artifactLevel_append_new (arts : List Artifact) (id : String)
    (h : arts.find? (fun a => a.id = id) = none) (b : Artifact) (hb : b.id = id) :
    artifactLevel (arts ++ [b]) id = b.level := by
  induction arts with
  | nil =>
    rw [List.nil_append]
    exact artifactLevel_cons_eq hb
  | cons a arts ih =>
    by_cases ha : a.id = id
    · rw [List.find?_cons_of_pos _ (by simp [ha])] at h
      cases h
    · rw [List.cons_append, artifactLevel_cons_ne ha]
      refine ih ?_
      rw [List.find?_cons_of_neg _ (by simp [ha])] at h
      exact h

lemma artifactLevel_of_find_none {arts : List Artifact} {id : String}
    (h : arts.find? (fun a => a.id = id) = none) : artifactLevel arts id = 0 := by
  unfold artifactLevel
  rw [h]

lemma purchaseArtifact_result (s : GameState) (base : Artifact)
    (hfind : SHOP_ARTIFACTS.find? (fun a => a.id = base.id) = some base)
    (hcash : ((artifactCurrentCost s base : ℤ) : ℚ) ≤ s.cash) :
    (purchaseArtifact s base).cash = s.cash - ((artifactCurrentCost s base : ℤ) : ℚ) ∧
    artifactLevel (purchaseArtifact s base).artifacts base.id
      = artifactLevel s.artifacts base.id + 1 := by
  unfold purchaseArtifact buyItem
  rw [if_pos (show s.cash ≥ _ from hcash)]
  dsimp only
  by_cases hown : (s.artifacts.find? (fun a => a.id = base.id)).isSome = true
  · rw [if_pos hown]
    exact ⟨rfl, artifactLevel_bump _ _ hown⟩
  · rw [if_neg hown]
    have hnone : s.artifacts.find? (fun a => a.id = base.id) = none := by
      cases hf : s.artifacts.find? (fun a => a.id = base.id) with
      | none => rfl
      | some a => rw [hf] at hown; simp at hown
    rw [hfind]
    refine ⟨rfl, ?_⟩
    rw [artifactLevel_of_find_none hnone]
    exact artifactLevel_append_new _ _ hnone _ rfl

/-- C9: the displayed purchase price at owned level L is
`floor(baseCost * 1.5^L)`; a successful purchase deducts exactly that price
and raises the level by exactly 1; hence three successive purchases from
level 0 cost `floor(baseCost)`, `floor(baseCost*1.5)` and `floor(baseCost*2.25)`. -/
theorem artifact_price_and_level_progression (s : GameState) (base : Artifact)
    (hfind : SHOP_ARTIFACTS.find? (fun a => a.id = base.id) = some base) :
    (artifactCurrentCost s base
        = Int.floor (base.cost * (3 / 2) ^ artifactLevel s.artifacts base.id)) ∧
    (((artifactCurrentCost s base : ℤ) : ℚ) ≤ s.cash →
        (purchaseArtifact s base).cash = s.cash - ((artifactCurrentCost s base : ℤ) : ℚ) ∧
        artifactLevel (purchaseArtifact s base).artifacts base.id
          = artifactLevel s.artifacts base.id + 1) ∧
    (artifactLevel s.artifacts base.id = 0 →
     ((artifactCurrentCost s base : ℤ) : ℚ) ≤ s.cash →
     ((artifactCurrentCost (purchaseArtifact s base) base : ℤ) : ℚ)
        ≤ (purchaseArtifact s base).cash →
        artifactCurrentCost s base = Int.floor base.cost ∧
        artifactCurrentCost (purchaseArtifact s base) base
          = Int.floor (base.cost * (3 / 2)) ∧
        artifactCurrentCost (purchaseArtifact (purchaseArtifact s base) base) base
          = Int.floor (base.cost * (9 / 4))) := by
  refine ⟨rfl, fun hcash => purchaseArtifact_result s base hfind hcash, ?_⟩
  intro hL0 h1 h2
  have step1 := purchaseArtifact_result s base hfind h1
  have step2 := purchaseArtifact_result (purchaseArtifact s base) base hfind h2
  have hL1 : artifactLevel (purchaseArtifact s base).artifacts base.id = 1 := by
    rw [step1.2, hL0]
  have hL2 : artifactLevel (purchaseArtifact (purchaseArtifact s base) base).artifacts base.id
      = 2 := by
    rw [step2.2, hL1]
  refine ⟨?_, ?_, ?_⟩
  · unfold artifactCurrentCost
    rw [hL0]
    norm_num
  · unfold artifactCurrentCost
    rw [hL1]
    norm_num
  · unfold artifactCurrentCost
    rw [hL2]
    norm_num

/-- Witness for C9: buying the Score Multiplier (base cost 800) three times
from a rich state costs 800, 1200 and 1800. -/
theorem artifact_price_and_level_progression_witness :
    artifactCurrentCost { INITIAL_STATE with cash := 10000 } ⟨"mult", 800, false, 0⟩ = 800 ∧
    artifactCurrentCost
      (purchaseArtifact { INITIAL_STATE with cash := 10000 } ⟨"mult", 800, false, 0⟩)
      ⟨"mult", 800, false, 0⟩ = 1200 ∧
    artifactCurrentCost
      (purchaseArtifact
        (purchaseArtifact { INITIAL_STATE with cash := 10000 } ⟨"mult", 800, false, 0⟩)
        ⟨"mult", 800, false, 0⟩)
      ⟨"mult", 800, false, 0⟩ = 1800 := by
  have h := (artifact_price_and_level_progression
      { INITIAL_STATE with cash := 10000 } ⟨"mult", 800, false, 0⟩ (by decide)).2.2
      (by decide)
      (by norm_num [artifactCurrentCost, artifactLevel, INITIAL_STATE, SHOP_ARTIFACTS])
      (by
        have hp := purchaseArtifact_result { INITIAL_STATE with cash := 10000 }
          ⟨"mult", 800, false, 0⟩ (by decide)
          (by norm_num [artifactCurrentCost, artifactLevel, INITIAL_STATE, SHOP_ARTIFACTS])
        rw [hp.1]
        have hc : artifactCurrentCost
            (purchaseArtifact { INITIAL_STATE with cash := 10000 } ⟨"mult", 800, false, 0⟩)
            ⟨"mult", 800, false, 0⟩
            = Int.floor ((800 : ℚ) * (3 / 2) ^ (1 : ℕ)) := by
          unfold artifactCurrentCost
          rw [hp.2]
          norm_num [artifactLevel, INITIAL_STATE]
        rw [hc]
        norm_num [artifactCurrentCost, artifactLevel, INITIAL_STATE])
  refine ⟨?_, ?_, ?_⟩
  · rw [h.1]
    norm_num
  · rw [h.2.1]
    norm_num
  · rw [h.2.2]
    norm_num

/-! ### Unknown artifact id purchase is not atomic (C10) -/

/-- C10: buying an artifact id absent from the catalog (and not owned) with
affordable cost deducts the cost from cash while leaving the artifact list
unchanged — the cash is spent with nothing gained. -/
theorem unknown_artifact_purchase_spends_cash (s : GameState) (id : String) (cost : ℚ)
    (hcat : SHOP_ARTIFACTS.find? (fun a => a.id = id) = none)
    (hown : s.artifacts.find? (fun a => a.id = id) = none)
    (hcash : cost ≤ s.cash) :
    (buyItem s .artifact id .STANDARD cost).cash = s.cash - cost ∧
    (buyItem s .artifact id .STANDARD cost).artifacts = s.artifacts := by
  unfold buyItem
  rw [if_pos (show s.cash ≥ cost from hcash)]
  dsimp only
  rw [hown]
  simp only [Option.isSome_none, Bool.false_eq_true, if_false]
  rw [hcat]
  exact ⟨rfl, rfl⟩

/-- Witness for C10 at the initial state and the unknown id "warpdrive". -/
theorem unknown_artifact_purchase_spends_cash_witness :
    (buyItem INITIAL_STATE .artifact "warpdrive" .STANDARD 50).cash = 50 ∧
    (buyItem INITIAL_STATE .artifact "warpdrive" .STANDARD 50).artifacts = [] := by
  have h := unknown_artifact_purchase_spends_cash INITIAL_STATE "warpdrive" 50
    (by decide) (by decide) (by norm_num [INITIAL_STATE])
  refine ⟨?_, ?_⟩
  · rw [h.1]
    norm_num [INITIAL_STATE]
  · rw [h.2]
    rfl
